import Mathlib

/-! Shallow embedding of the library-management system
(src/models: loan.py, items.py, users.py, abstract_classes.py, library_system.py).

Conventions:
* `datetime` values are integers counting minutes; `timedelta(days = n)` is
  `n * minutesPerDay`, and Python's `timedelta.days` (floor of the day
  difference) is `timedeltaDays`.
* Python floats carrying money are modelled as rationals; every operation the
  code performs on them here (sums, differences, products of a whole number of
  days with the 0.50 rate) is exact in IEEE doubles as well.
* Python dicts become association lists in insertion order; `lookupA`,
  `replaceA` and `eraseA` mirror indexing, assignment to an existing key, and
  `del`.
* A method that mutates `self` becomes a function returning the updated
  record; a method that can raise an uncaught exception returns an `Option`
  (`none` = the exception escapes).
* `uuid.uuid4()` loan identifiers become numbers supplied by the caller; the
  reachability relation assumes a fresh identifier is unused, as uuid
  collision freedom does.
-/

/-- Minutes per day; `timedelta(days = 1)` in the time model. -/
def minutesPerDay : Int := 1440

/-- Python `timedelta.days`: the floor of the difference expressed in days. -/
def timedeltaDays (d : Int) : Int := Int.fdiv d minutesPerDay

/-! ### Association-list model of Python dicts -/

/-- Dict lookup: first entry with the given key (`dict.get`). -/
def lookupA {κ β : Type} [DecidableEq κ] : List (κ × β) → κ → Option β
  | [], _ => none
  | (k, v) :: rest, k' => if k = k' then some v else lookupA rest k'

/-- Dict assignment to an existing key: replace the value in place. -/
def replaceA {κ β : Type} [DecidableEq κ] (l : List (κ × β)) (k : κ) (v : β) :
    List (κ × β) :=
  l.map (fun p => if p.1 = k then (k, v) else p)

/-- Dict `del`: drop the entry with the given key. -/
def eraseA {κ β : Type} [DecidableEq κ] (l : List (κ × β)) (k : κ) :
    List (κ × β) :=
  l.filter (fun p => !(decide (p.1 = k)))

/-- The key list of a dict. -/
def keysOf {κ β : Type} (l : List (κ × β)) : List κ := l.map Prod.fst

/-! ### Loan (loan.py) -/

/-- One borrowing transaction (`Loan.__init__` field for field; `_loan_id`
is a caller-supplied number standing for the uuid). -/
structure Loan where
  loan_id : Nat
  user_id : String
  item_id : String
  date_borrowed : Int
  date_due : Int
  date_returned : Option Int
  is_returned : Bool
  fine_amount : Rat
  renewal_count : Nat
  deriving Repr, DecidableEq

/-- Python `Loan._max_renewals = 2`. -/
def Loan.maxRenewals : Nat := 2

/-- Python `Loan.__init__`: borrowed now, due after the loan period, not returned,
no fine, no renewals. -/
def Loan.create (lid : Nat) (uid iid : String) (loan_period_days : Int)
    (now : Int) : Loan :=
  { loan_id := lid
    user_id := uid
    item_id := iid
    date_borrowed := now
    date_due := now + loan_period_days * minutesPerDay
    date_returned := none
    is_returned := false
    fine_amount := 0
    renewal_count := 0 }

/-- Python `Loan.is_overdue`: false once returned, else now past the due date. -/
def Loan.is_overdue (l : Loan) (now : Int) : Bool :=
  if l.is_returned then false else decide (l.date_due < now)

/-- Python `Loan.days_overdue`. -/
def Loan.days_overdue (l : Loan) (now : Int) : Int :=
  if l.is_returned || !(l.is_overdue now) then 0
  else timedeltaDays (now - l.date_due)

/-- Python `Loan.return_item`: raises (`none`) when already returned, otherwise
marks the loan returned at `return_date` and freezes the late fine. -/
def Loan.return_item (l : Loan) (rate : Rat) (return_date : Int) :
    Option (Loan × Rat) :=
  if l.is_returned then none
  else
    let fine : Rat :=
      if l.date_due < return_date
      then ((timedeltaDays (return_date - l.date_due) : Int) : Rat) * rate
      else 0
    some ({ l with
        date_returned := some return_date
        is_returned := true
        fine_amount := fine }, fine)

/-- Python `Loan.renew_loan(additional_days)`: `none` models `return False`; the
Python default argument is `additional_days = 21`. -/
def Loan.renew_loan (l : Loan) (additional_days : Int) (now : Int) :
    Option Loan :=
  if l.is_returned then none
  else if Loan.maxRenewals ≤ l.renewal_count then none
  else if l.is_overdue now then none
  else some { l with
      date_due := l.date_due + additional_days * minutesPerDay
      renewal_count := l.renewal_count + 1 }

/-- Python `Loan.can_renew`. -/
def Loan.can_renew (l : Loan) (now : Int) : Bool :=
  !l.is_returned && decide (l.renewal_count < Loan.maxRenewals) &&
    !(l.is_overdue now)

/-! ### Items (items.py, abstract_classes.py) -/

inductive ItemType where
  | book
  | magazine
  | dvd
  deriving Repr, DecidableEq

/-- A library item; the three concrete classes differ only in the static
data recorded by `itype` as far as checkout logic is concerned. -/
structure Item where
  item_id : String
  title : String
  is_available : Bool
  current_borrower : Option String
  checkout_date : Option Int
  itype : ItemType
  deriving Repr, DecidableEq

/-- Python `get_loan_period`: Book 21, Magazine 7, DVD 14. -/
def Item.get_loan_period (i : Item) : Int :=
  match i.itype with
  | .book => 21
  | .magazine => 7
  | .dvd => 14

/-- Python `check_out`: fails (`none`) when already unavailable; otherwise flips the
availability flag and records the borrower. -/
def Item.check_out (i : Item) (uid : String) (now : Int) : Option Item :=
  if !i.is_available then none
  else some { i with
      is_available := false
      current_borrower := some uid
      checkout_date := some now }

/-- Python `check_in`: fails (`none`) when already available. -/
def Item.check_in (i : Item) : Option Item :=
  if i.is_available then none
  else some { i with
      is_available := true
      current_borrower := none
      checkout_date := none }

/-! ### Users (users.py) -/

/-- Python `Member._default_borrowing_limit = 5`. -/
def memberBorrowingLimit : Nat := 5

/-- The `> $10` fine gate in `Member.can_borrow_item`. -/
def memberFineThreshold : Rat := 10

structure Member where
  user_id : String
  name : String
  email : String
  phone : Option String
  borrowed_items : List String
  loan_history : List Nat
  fines_owed : Rat
  membership_expiry : Int
  registration_date : Int
  deriving Repr, DecidableEq

def Member.get_borrowing_limit (_ : Member) : Nat := memberBorrowingLimit

/-- Python `Member.can_borrow_item`: limit, availability, expiry, fines, in the
source's order. -/
def Member.can_borrow_item (m : Member) (item : Item) (now : Int) : Bool :=
  if m.get_borrowing_limit ≤ m.borrowed_items.length then false
  else if !item.is_available then false
  else if decide (m.membership_expiry < now) then false
  else if decide (memberFineThreshold < m.fines_owed) then false
  else true

/-- Python `Member.borrow_item`. -/
def Member.borrow_item (m : Member) (iid : String) : Member × Bool :=
  if m.get_borrowing_limit ≤ m.borrowed_items.length then (m, false)
  else if iid ∈ m.borrowed_items then (m, false)
  else ({ m with borrowed_items := m.borrowed_items ++ [iid] }, true)

/-- Python `Member.return_item`. -/
def Member.return_item (m : Member) (iid : String) : Member × Bool :=
  if iid ∈ m.borrowed_items then
    ({ m with borrowed_items := m.borrowed_items.erase iid }, true)
  else (m, false)

/-- Python `Member.add_loan_to_history`. -/
def Member.add_loan_to_history (m : Member) (lid : Nat) : Member :=
  if lid ∈ m.loan_history then m
  else { m with loan_history := m.loan_history ++ [lid] }

/-- Python `Member.add_fine`: only positive amounts accumulate. -/
def Member.add_fine (m : Member) (amount : Rat) : Member :=
  if 0 < amount then { m with fines_owed := m.fines_owed + amount } else m

/-- Python `Member.pay_fine`: rejects non-positive amounts and amounts above the
balance; otherwise subtracts. -/
def Member.pay_fine (m : Member) (amount : Rat) : Member × Bool :=
  if amount ≤ 0 ∨ m.fines_owed < amount then (m, false)
  else ({ m with fines_owed := m.fines_owed - amount }, true)

/-- Python `Member.is_membership_active`. -/
def Member.is_membership_active (m : Member) (now : Int) : Bool :=
  decide (now ≤ m.membership_expiry)

inductive StaffRole where
  | manager
  | librarian
  deriving Repr, DecidableEq

structure Staff where
  user_id : String
  name : String
  email : String
  role : StaffRole
  hire_date : Int
  permissions : List String
  borrowed_items : List String
  deriving Repr, DecidableEq

/-- Python `Staff._get_default_permissions`. -/
def staffDefaultPermissions (role : StaffRole) : List String :=
  match role with
  | .manager =>
      ["view_catalog", "help_members", "add_items", "remove_items",
       "manage_users", "view_reports", "system_admin", "manage_fines"]
  | .librarian =>
      ["view_catalog", "help_members", "add_items", "remove_items",
       "check_out_items", "check_in_items", "view_member_history",
       "manage_fines"]

/-- Python `Staff.get_borrowing_limit`: Manager 20, Librarian 15. -/
def Staff.get_borrowing_limit (st : Staff) : Nat :=
  match st.role with
  | .manager => 20
  | .librarian => 15

/-- Python `Staff.can_borrow_item`: only the limit and availability checks. -/
def Staff.can_borrow_item (st : Staff) (item : Item) : Bool :=
  if st.get_borrowing_limit ≤ st.borrowed_items.length then false
  else if !item.is_available then false
  else true

/-- Python `Staff.borrow_item`. -/
def Staff.borrow_item (st : Staff) (iid : String) : Staff × Bool :=
  if st.get_borrowing_limit ≤ st.borrowed_items.length then (st, false)
  else if iid ∈ st.borrowed_items then (st, false)
  else ({ st with borrowed_items := st.borrowed_items ++ [iid] }, true)

/-- Python `Staff.return_item`. -/
def Staff.return_item (st : Staff) (iid : String) : Staff × Bool :=
  if iid ∈ st.borrowed_items then
    ({ st with borrowed_items := st.borrowed_items.erase iid }, true)
  else (st, false)

/-- The two concrete `User` subclasses. -/
inductive User where
  | member (m : Member)
  | staff (st : Staff)
  deriving Repr, DecidableEq

def User.user_id : User → String
  | .member m => m.user_id
  | .staff st => st.user_id

def User.can_borrow_item (u : User) (item : Item) (now : Int) : Bool :=
  match u with
  | .member m => m.can_borrow_item item now
  | .staff st => st.can_borrow_item item

def User.borrow_item (u : User) (iid : String) : User × Bool :=
  match u with
  | .member m => ((User.member (m.borrow_item iid).1), (m.borrow_item iid).2)
  | .staff st => ((User.staff (st.borrow_item iid).1), (st.borrow_item iid).2)

/-- The `hasattr`-guarded user updates performed by
`LibrarySystem.check_in_item` after a successful item check-in:
`return_item` exists on both classes, `add_loan_to_history` and `add_fine`
only on `Member`, and the fine is applied only when positive. -/
def User.apply_checkin (u : User) (iid : String) (lid : Nat) (fine : Rat) :
    User :=
  match u with
  | .member m =>
      let m1 := (m.return_item iid).1
      let m2 := m1.add_loan_to_history lid
      let m3 := if 0 < fine then m2.add_fine fine else m2
      User.member m3
  | .staff st => User.staff (st.return_item iid).1

/-! ### LibrarySystem (library_system.py) -/

structure LibrarySystem where
  name : String
  items : List (String × Item)
  users : List (String × User)
  loans : List (Nat × Loan)
  active_loans : List (String × List Nat)
  deriving Repr, DecidableEq

/-- Python `LibrarySystem.__init__`. -/
def LibrarySystem.init (name : String) : LibrarySystem :=
  { name := name, items := [], users := [], loans := [], active_loans := [] }

/-- Python `register_user`: fails on a duplicate id, otherwise installs the user
and an empty active-loan list. -/
def LibrarySystem.register_user (s : LibrarySystem) (u : User) :
    LibrarySystem × Bool :=
  if (lookupA s.users u.user_id).isSome then (s, false)
  else
    ({ s with
        users := s.users ++ [(u.user_id, u)]
        active_loans := s.active_loans ++ [(u.user_id, [])] }, true)

/-- Python `remove_user`: fails when unknown or when the active-loan index holds a
non-empty list for the user. -/
def LibrarySystem.remove_user (s : LibrarySystem) (uid : String) :
    LibrarySystem × Bool :=
  if (lookupA s.users uid).isNone then (s, false)
  else if (match lookupA s.active_loans uid with
           | some lids => !lids.isEmpty
           | none => false) then (s, false)
  else
    ({ s with
        users := eraseA s.users uid
        active_loans := eraseA s.active_loans uid }, true)

/-- Python `add_item`: fails on a duplicate id. -/
def LibrarySystem.add_item (s : LibrarySystem) (item : Item) :
    LibrarySystem × Bool :=
  if (lookupA s.items item.item_id).isSome then (s, false)
  else ({ s with items := s.items ++ [(item.item_id, item)] }, true)

/-- Python `remove_item`: fails when unknown or currently on loan. -/
def LibrarySystem.remove_item (s : LibrarySystem) (iid : String) :
    LibrarySystem × Bool :=
  match lookupA s.items iid with
  | none => (s, false)
  | some item =>
    if !item.is_available then (s, false)
    else ({ s with items := eraseA s.items iid }, true)

/-- Python `check_out_item`. The outer `Option` models the uncaught `KeyError`
raised by `self._active_loans[user_id].append(...)` when the user id is
missing from the active-loan index. -/
def LibrarySystem.check_out_item (s : LibrarySystem) (uid iid : String)
    (lid : Nat) (now : Int) : Option (LibrarySystem × Bool × String) :=
  match lookupA s.users uid with
  | none => some (s, false, "User not found")
  | some user =>
    match lookupA s.items iid with
    | none => some (s, false, "Item not found")
    | some item =>
      if !(user.can_borrow_item item now) then
        some (s, false,
          "User cannot borrow this item (check limits, fines, or membership status)")
      else if !item.is_available then
        some (s, false, "Item is not available")
      else
        let loan := Loan.create lid uid iid item.get_loan_period now
        match item.check_out uid now with
        | none => some (s, false, "Failed to check out item")
        | some item' =>
          match lookupA s.active_loans uid with
          | none => none
          | some lids =>
            some ({ s with
                items := replaceA s.items iid item'
                loans := s.loans ++ [(lid, loan)]
                active_loans := replaceA s.active_loans uid (lids ++ [lid])
                users := replaceA s.users uid (user.borrow_item iid).1 },
              true, "Item checked out successfully")

/-- The scan at the top of `check_in_item` and `renew_loan`: the first loan
id in the user's active list whose loan exists, matches the item and is not
returned. -/
def findActiveLoan (loans : List (Nat × Loan)) (iid : String) :
    List Nat → Option (Nat × Loan)
  | [] => none
  | lid :: rest =>
    match lookupA loans lid with
    | some loan =>
      if loan.item_id = iid ∧ loan.is_returned = false then some (lid, loan)
      else findActiveLoan loans iid rest
    | none => findActiveLoan loans iid rest

/-- The user-registry update performed by `check_in_item` after a successful
item check-in: `get_user` may return `None`, in which case the
`hasattr`-guarded calls all skip. -/
def updateUserCheckin (users : List (String × User)) (uid iid : String)
    (lid : Nat) (fine : Rat) : List (String × User) :=
  match lookupA users uid with
  | some u => replaceA users uid (u.apply_checkin iid lid fine)
  | none => users

/-- Python `check_in_item`. The outer `Option` models the `ValueError` of
`Loan.return_item` escaping (the scan makes that branch unreachable); the
"Failed to check in item" branch keeps the already-mutated loan, as the
source does. -/
def LibrarySystem.check_in_item (s : LibrarySystem) (uid iid : String)
    (rate : Rat) (now : Int) :
    Option (LibrarySystem × Bool × String × Rat) :=
  match findActiveLoan s.loans iid ((lookupA s.active_loans uid).getD []) with
  | none => some (s, false, "No active loan found for this item and user", 0)
  | some (lid, loan) =>
    match lookupA s.items iid with
    | none => some (s, false, "Item not found", 0)
    | some item =>
      match loan.return_item rate now with
      | none => none
      | some (loan', fine) =>
        match item.check_in with
        | none =>
          some ({ s with loans := replaceA s.loans lid loan' },
            false, "Failed to check in item", 0)
        | some item' =>
          some ({ s with
              items := replaceA s.items iid item'
              loans := replaceA s.loans lid loan'
              active_loans := replaceA s.active_loans uid
                (((lookupA s.active_loans uid).getD []).erase lid)
              users := updateUserCheckin s.users uid iid lid fine },
            true, "Item returned successfully.", fine)

/-- Python `renew_loan`: delegates to `Loan.renew_loan` with its Python default
argument `additional_days = 21`. -/
def LibrarySystem.renew_loan (s : LibrarySystem) (uid iid : String)
    (now : Int) : LibrarySystem × Bool × String :=
  match findActiveLoan s.loans iid ((lookupA s.active_loans uid).getD []) with
  | none => (s, false, "No active loan found for this item and user")
  | some (lid, loan) =>
    match loan.renew_loan 21 now with
    | some loan' =>
      ({ s with loans := replaceA s.loans lid loan' }, true,
        "Loan renewed successfully")
    | none =>
      (s, false, "Cannot renew loan (maximum renewals reached or item is overdue)")

/-- Does a loan count as an active loan of the given item, as in the
availability scan of `validate_system_integrity`? -/
def countsFor (loan : Loan) (iid : String) : Bool :=
  decide (loan.item_id = iid) && !loan.is_returned

/-- Number of non-returned loans referencing an item
(`validate_system_integrity`'s per-item scan). -/
def countActive (loans : List (Nat × Loan)) (iid : String) : Nat :=
  (loans.filter (fun p => countsFor p.2 iid)).length

/-! ### Association-list lemmas -/

theorem lookupA_cons {κ β : Type} [DecidableEq κ] (k1 : κ) (v1 : β)
    (rest : List (κ × β)) (k : κ) :
    lookupA ((k1, v1) :: rest) k = if k1 = k then some v1 else lookupA rest k :=
  rfl

theorem replaceA_cons {κ β : Type} [DecidableEq κ] (k1 : κ) (v1 : β)
    (rest : List (κ × β)) (k : κ) (v : β) :
    replaceA ((k1, v1) :: rest) k v =
      (if k1 = k then (k, v) else (k1, v1)) :: replaceA rest k v :=
  rfl

theorem eraseA_cons {κ β : Type} [DecidableEq κ] (k1 : κ) (v1 : β)
    (rest : List (κ × β)) (k : κ) :
    eraseA ((k1, v1) :: rest) k =
      if k1 = k then eraseA rest k else (k1, v1) :: eraseA rest k := by
  by_cases h : k1 = k <;> simp [eraseA, List.filter_cons, h]

theorem keysOf_cons {κ β : Type} (k1 : κ) (v1 : β) (rest : List (κ × β)) :
    keysOf ((k1, v1) :: rest) = k1 :: keysOf rest :=
  rfl

theorem keysOf_append {κ β : Type} (l₁ l₂ : List (κ × β)) :
    keysOf (l₁ ++ l₂) = keysOf l₁ ++ keysOf l₂ := by
  simp [keysOf]

theorem lookupA_eq_none_iff {κ β : Type} [DecidableEq κ]
    (l : List (κ × β)) (k : κ) : lookupA l k = none ↔ k ∉ keysOf l := by
  induction l with
  | nil => simp [lookupA, keysOf]
  | cons p rest ih =>
    obtain ⟨k1, v1⟩ := p
    rw [lookupA_cons, keysOf_cons]
    by_cases h : k1 = k
    · subst h
      simp
    · rw [if_neg h, ih]
      simp only [List.mem_cons, not_or]
      constructor
      · intro hn
        exact ⟨fun he => h he.symm, hn⟩
      · intro hn
        exact hn.2

theorem lookupA_isSome_iff {κ β : Type} [DecidableEq κ]
    (l : List (κ × β)) (k : κ) :
    (lookupA l k).isSome = true ↔ k ∈ keysOf l := by
  rw [Option.isSome_iff_ne_none, ne_eq, lookupA_eq_none_iff, not_not]

theorem mem_of_lookupA_some {κ β : Type} [DecidableEq κ]
    {l : List (κ × β)} {k : κ} {v : β} (h : lookupA l k = some v) :
    (k, v) ∈ l := by
  induction l with
  | nil => simp [lookupA] at h
  | cons p rest ih =>
    obtain ⟨k1, v1⟩ := p
    rw [lookupA_cons] at h
    by_cases hk : k1 = k
    · subst hk
      rw [if_pos rfl] at h
      obtain rfl := Option.some.injEq .. ▸ h
      simp_all
    · rw [if_neg hk] at h
      exact List.mem_cons_of_mem _ (ih h)

theorem lookupA_of_mem_nodup {κ β : Type} [DecidableEq κ]
    {l : List (κ × β)} {k : κ} {v : β}
    (hnd : (keysOf l).Nodup) (h : (k, v) ∈ l) : lookupA l k = some v := by
  induction l with
  | nil => simp at h
  | cons p rest ih =>
    obtain ⟨k1, v1⟩ := p
    rw [keysOf_cons, List.nodup_cons] at hnd
    rw [lookupA_cons]
    rcases List.mem_cons.mp h with h1 | h1
    · obtain ⟨hk, hv⟩ := Prod.mk.injEq .. ▸ h1
      rw [if_pos hk.symm, hv]
    · by_cases hk : k1 = k
      · subst hk
        have : k1 ∈ keysOf rest := List.mem_map_of_mem Prod.fst h1
        exact absurd this hnd.1
      · rw [if_neg hk]
        exact ih hnd.2 h1

theorem lookupA_append_some {κ β : Type} [DecidableEq κ]
    {l₁ : List (κ × β)} (l₂ : List (κ × β)) {k : κ} {v : β}
    (h : lookupA l₁ k = some v) : lookupA (l₁ ++ l₂) k = some v := by
  induction l₁ with
  | nil => simp [lookupA] at h
  | cons p rest ih =>
    obtain ⟨k1, v1⟩ := p
    rw [lookupA_cons] at h
    rw [List.cons_append, lookupA_cons]
    by_cases hk : k1 = k
    · rwa [if_pos hk] at h ⊢
    · rw [if_neg hk] at h ⊢
      exact ih h

theorem lookupA_append_none {κ β : Type} [DecidableEq κ]
    {l₁ : List (κ × β)} (l₂ : List (κ × β)) {k : κ}
    (h : lookupA l₁ k = none) : lookupA (l₁ ++ l₂) k = lookupA l₂ k := by
  induction l₁ with
  | nil => simp
  | cons p rest ih =>
    obtain ⟨k1, v1⟩ := p
    rw [lookupA_cons] at h
    rw [List.cons_append, lookupA_cons]
    by_cases hk : k1 = k
    · rw [if_pos hk] at h
      exact absurd h (by simp)
    · rw [if_neg hk] at h ⊢
      exact ih h

theorem lookupA_replaceA_self {κ β : Type} [DecidableEq κ]
    (l : List (κ × β)) (k : κ) (v : β) :
    lookupA (replaceA l k v) k = (lookupA l k).map (fun _ => v) := by
  induction l with
  | nil => simp [lookupA, replaceA]
  | cons p rest ih =>
    obtain ⟨k1, v1⟩ := p
    rw [replaceA_cons]
    by_cases hk : k1 = k
    · rw [if_pos hk, lookupA_cons, lookupA_cons, if_pos hk, if_pos rfl]
      rfl
    · rw [if_neg hk, lookupA_cons, lookupA_cons, if_neg hk, if_neg hk]
      exact ih

theorem lookupA_replaceA_ne {κ β : Type} [DecidableEq κ]
    (l : List (κ × β)) {k k' : κ} (v : β) (h : k' ≠ k) :
    lookupA (replaceA l k v) k' = lookupA l k' := by
  induction l with
  | nil => simp [lookupA, replaceA]
  | cons p rest ih =>
    obtain ⟨k1, v1⟩ := p
    rw [replaceA_cons]
    by_cases hk : k1 = k
    · subst hk
      rw [if_pos rfl, lookupA_cons, lookupA_cons,
        if_neg (fun he : k1 = k' => h he.symm),
        if_neg (fun he : k1 = k' => h he.symm)]
      exact ih
    · rw [if_neg hk, lookupA_cons, lookupA_cons]
      by_cases hk2 : k1 = k'
      · rw [if_pos hk2, if_pos hk2]
      · rw [if_neg hk2, if_neg hk2]
        exact ih

theorem keysOf_replaceA {κ β : Type} [DecidableEq κ]
    (l : List (κ × β)) (k : κ) (v : β) :
    keysOf (replaceA l k v) = keysOf l := by
  induction l with
  | nil => rfl
  | cons p rest ih =>
    obtain ⟨k1, v1⟩ := p
    rw [replaceA_cons]
    by_cases hk : k1 = k
    · subst hk
      rw [if_pos rfl, keysOf_cons, keysOf_cons, ih]
    · rw [if_neg hk, keysOf_cons, keysOf_cons, ih]

theorem replaceA_not_mem {κ β : Type} [DecidableEq κ]
    {l : List (κ × β)} {k : κ} (v : β) (h : k ∉ keysOf l) :
    replaceA l k v = l := by
  induction l with
  | nil => rfl
  | cons p rest ih =>
    obtain ⟨k1, v1⟩ := p
    rw [keysOf_cons, List.mem_cons, not_or] at h
    rw [replaceA_cons, if_neg (fun he : k1 = k => h.1 he.symm), ih h.2]

theorem lookupA_eraseA_self {κ β : Type} [DecidableEq κ]
    (l : List (κ × β)) (k : κ) : lookupA (eraseA l k) k = none := by
  induction l with
  | nil => rfl
  | cons p rest ih =>
    obtain ⟨k1, v1⟩ := p
    rw [eraseA_cons]
    by_cases hk : k1 = k
    · rw [if_pos hk]
      exact ih
    · rw [if_neg hk, lookupA_cons, if_neg hk]
      exact ih

theorem lookupA_eraseA_ne {κ β : Type} [DecidableEq κ]
    (l : List (κ × β)) {k k' : κ} (h : k' ≠ k) :
    lookupA (eraseA l k) k' = lookupA l k' := by
  induction l with
  | nil => rfl
  | cons p rest ih =>
    obtain ⟨k1, v1⟩ := p
    rw [eraseA_cons]
    by_cases hk : k1 = k
    · subst hk
      rw [if_pos rfl, lookupA_cons, if_neg (fun he : k1 = k' => h he.symm)]
      exact ih
    · rw [if_neg hk, lookupA_cons, lookupA_cons]
      by_cases hk2 : k1 = k'
      · rw [if_pos hk2, if_pos hk2]
      · rw [if_neg hk2, if_neg hk2]
        exact ih

theorem keysOf_eraseA_sublist {κ β : Type} [DecidableEq κ]
    (l : List (κ × β)) (k : κ) :
    (keysOf (eraseA l k)).Sublist (keysOf l) :=
  List.Sublist.map Prod.fst (List.filter_sublist l)

theorem nodup_keysOf_eraseA {κ β : Type} [DecidableEq κ]
    {l : List (κ × β)} (k : κ) (h : (keysOf l).Nodup) :
    (keysOf (eraseA l k)).Nodup :=
  (keysOf_eraseA_sublist l k).nodup h

theorem lookupA_append_single_self {κ β : Type} [DecidableEq κ]
    {l : List (κ × β)} {k : κ} (v : β) (h : lookupA l k = none) :
    lookupA (l ++ [(k, v)]) k = some v := by
  rw [lookupA_append_none _ h, lookupA_cons, if_pos rfl]

theorem lookupA_append_single_ne {κ β : Type} [DecidableEq κ]
    {l : List (κ × β)} {k k' : κ} (v : β) (h : k' ≠ k) :
    lookupA (l ++ [(k, v)]) k' = lookupA l k' := by
  cases hl : lookupA l k' with
  | some w => exact lookupA_append_some _ hl
  | none =>
    rw [lookupA_append_none _ hl, lookupA_cons,
      if_neg (fun he : k = k' => h he.symm)]
    rfl

theorem nodup_keysOf_append_fresh {κ β : Type} [DecidableEq κ]
    {l : List (κ × β)} {k : κ} (v : β) (hnd : (keysOf l).Nodup)
    (h : k ∉ keysOf l) : (keysOf (l ++ [(k, v)])).Nodup := by
  rw [keysOf_append, List.nodup_append]
  refine ⟨hnd, List.nodup_singleton k, ?_⟩
  intro a ha hb
  rw [show keysOf [(k, v)] = [k] from rfl, List.mem_singleton] at hb
  exact h (hb ▸ ha)

/-! ### Counting lemmas for active loans -/

theorem countActive_nil (iid : String) : countActive [] iid = 0 := rfl

theorem countActive_cons (lid : Nat) (loan : Loan) (rest : List (Nat × Loan))
    (iid : String) :
    countActive ((lid, loan) :: rest) iid =
      (if countsFor loan iid then 1 else 0) + countActive rest iid := by
  by_cases h : countsFor loan iid
  · simp [countActive, List.filter_cons, h, Nat.add_comm]
  · simp [countActive, List.filter_cons, h]

theorem countActive_append (l₁ l₂ : List (Nat × Loan)) (iid : String) :
    countActive (l₁ ++ l₂) iid = countActive l₁ iid + countActive l₂ iid := by
  simp [countActive, List.filter_append]

theorem countActive_singleton (lid : Nat) (loan : Loan) (iid : String) :
    countActive [(lid, loan)] iid = if countsFor loan iid then 1 else 0 := by
  rw [countActive_cons, countActive_nil, Nat.add_zero]

theorem countActive_pos_of_mem {loans : List (Nat × Loan)} {lid : Nat}
    {loan : Loan} {iid : String} (hmem : (lid, loan) ∈ loans)
    (h : countsFor loan iid = true) : 0 < countActive loans iid := by
  have hf : (lid, loan) ∈ loans.filter (fun p => countsFor p.2 iid) :=
    List.mem_filter.mpr ⟨hmem, h⟩
  unfold countActive
  exact List.length_pos.mpr (List.ne_nil_of_mem hf)

theorem exists_mem_of_countActive_pos {loans : List (Nat × Loan)}
    {iid : String} (h : 0 < countActive loans iid) :
    ∃ p, p ∈ loans ∧ countsFor p.2 iid = true := by
  unfold countActive at h
  obtain ⟨p, hp⟩ := List.exists_mem_of_length_pos h
  obtain ⟨hm, hc⟩ := List.mem_filter.mp hp
  exact ⟨p, hm, hc⟩

theorem countActive_replaceA {loans : List (Nat × Loan)} {lid : Nat}
    {loan : Loan} (loan' : Loan) {iid : String}
    (hnd : (keysOf loans).Nodup) (h : lookupA loans lid = some loan) :
    countActive (replaceA loans lid loan') iid
        + (if countsFor loan iid then 1 else 0)
      = countActive loans iid + (if countsFor loan' iid then 1 else 0) := by
  induction loans with
  | nil => simp [lookupA] at h
  | cons p rest ih =>
    obtain ⟨k1, v1⟩ := p
    rw [keysOf_cons, List.nodup_cons] at hnd
    rw [lookupA_cons] at h
    rw [replaceA_cons]
    by_cases hk : k1 = lid
    · subst hk
      rw [if_pos rfl] at h
      obtain rfl : v1 = loan := by injection h
      rw [if_pos rfl, countActive_cons, countActive_cons]
      rw [replaceA_not_mem _ hnd.1]
      ring
    · rw [if_neg hk] at h
      rw [if_neg hk, countActive_cons, countActive_cons,
        Nat.add_assoc, Nat.add_assoc, ih hnd.2 h]

/-! ### The integrity invariant of the directory

`avail_iff` and `at_most_one` are the availability conditions that
`validate_system_integrity` scans for; the remaining fields are the
bookkeeping facts the operations rely on (key sets of the user registry and
the active-loan index agree, active lists are duplicate-free and point to
live, matching loans, and active loans reference registered items). -/

structure LibInv (s : LibrarySystem) : Prop where
  users_nodup : (keysOf s.users).Nodup
  items_nodup : (keysOf s.items).Nodup
  loans_nodup : (keysOf s.loans).Nodup
  active_nodup : (keysOf s.active_loans).Nodup
  index_iff : ∀ uid, (lookupA s.active_loans uid).isSome = true ↔
      (lookupA s.users uid).isSome = true
  lists_nodup : ∀ uid lids, lookupA s.active_loans uid = some lids →
      lids.Nodup
  lists_valid : ∀ uid lids, lookupA s.active_loans uid = some lids →
      ∀ lid ∈ lids, ∃ loan, lookupA s.loans lid = some loan ∧
        loan.user_id = uid ∧ loan.is_returned = false
  no_orphan : ∀ lid loan, lookupA s.loans lid = some loan →
      loan.is_returned = false → (lookupA s.items loan.item_id).isSome = true
  avail_iff : ∀ iid item, lookupA s.items iid = some item →
      (item.is_available = true ↔ countActive s.loans iid = 0)
  at_most_one : ∀ iid, countActive s.loans iid ≤ 1

theorem libInv_init (name : String) : LibInv (LibrarySystem.init name) := by
  constructor <;> intros <;>
    simp_all [LibrarySystem.init, lookupA, keysOf, countActive]

theorem libInv_register {s : LibrarySystem} (u : User) (hInv : LibInv s) :
    LibInv (s.register_user u).1 := by
  unfold LibrarySystem.register_user
  by_cases hc : (lookupA s.users u.user_id).isSome = true
  · rw [if_pos hc]
    exact hInv
  · rw [if_neg hc]
    have hu : lookupA s.users u.user_id = none :=
      Option.not_isSome_iff_eq_none.mp hc
    have ha : lookupA s.active_loans u.user_id = none := by
      by_cases hx : (lookupA s.active_loans u.user_id).isSome = true
      · exact absurd ((hInv.index_iff u.user_id).mp hx) hc
      · exact Option.not_isSome_iff_eq_none.mp hx
    refine ⟨?_, ?_, ?_, ?_, ?_, ?_, ?_, ?_, ?_, ?_⟩
    · exact nodup_keysOf_append_fresh u hInv.users_nodup
        ((lookupA_eq_none_iff _ _).mp hu)
    · exact hInv.items_nodup
    · exact hInv.loans_nodup
    · exact nodup_keysOf_append_fresh _ hInv.active_nodup
        ((lookupA_eq_none_iff _ _).mp ha)
    · intro uid
      simp only []
      by_cases he : uid = u.user_id
      · subst he
        rw [lookupA_append_single_self _ ha, lookupA_append_single_self u hu]
        simp
      · rw [lookupA_append_single_ne _ he, lookupA_append_single_ne u he]
        exact hInv.index_iff uid
    · intro uid lids hl
      simp only [] at hl
      by_cases he : uid = u.user_id
      · subst he
        rw [lookupA_append_single_self _ ha] at hl
        obtain rfl : lids = [] := by
          injection hl with h1
          exact h1.symm
        exact List.nodup_nil
      · rw [lookupA_append_single_ne _ he] at hl
        exact hInv.lists_nodup uid lids hl
    · intro uid lids hl lid hmem
      simp only [] at hl ⊢
      by_cases he : uid = u.user_id
      · subst he
        rw [lookupA_append_single_self _ ha] at hl
        obtain rfl : lids = [] := by
          injection hl with h1
          exact h1.symm
        simp at hmem
      · rw [lookupA_append_single_ne _ he] at hl
        exact hInv.lists_valid uid lids hl lid hmem
    · exact hInv.no_orphan
    · exact hInv.avail_iff
    · exact hInv.at_most_one

theorem countsFor_eq_true_iff (loan : Loan) (iid : String) :
    countsFor loan iid = true ↔
      loan.item_id = iid ∧ loan.is_returned = false := by
  simp [countsFor]

theorem lookupA_append_isSome {κ β : Type} [DecidableEq κ]
    {l : List (κ × β)} (l₂ : List (κ × β)) {k : κ}
    (h : (lookupA l k).isSome = true) :
    (lookupA (l ++ l₂) k).isSome = true := by
  obtain ⟨v, hv⟩ := Option.isSome_iff_exists.mp h
  rw [lookupA_append_some l₂ hv]
  rfl

theorem libInv_remove_user {s : LibrarySystem} (uid : String)
    (hInv : LibInv s) : LibInv (s.remove_user uid).1 := by
  unfold LibrarySystem.remove_user
  split
  · exact hInv
  · split
    · exact hInv
    · refine ⟨nodup_keysOf_eraseA uid hInv.users_nodup, hInv.items_nodup,
        hInv.loans_nodup, nodup_keysOf_eraseA uid hInv.active_nodup,
        ?_, ?_, ?_, hInv.no_orphan, hInv.avail_iff, hInv.at_most_one⟩
      · intro uid'
        by_cases he : uid' = uid
        · subst he
          rw [lookupA_eraseA_self, lookupA_eraseA_self]
          exact Iff.rfl
        · rw [lookupA_eraseA_ne _ he, lookupA_eraseA_ne _ he]
          exact hInv.index_iff uid'
      · intro uid' lids hl
        by_cases he : uid' = uid
        · subst he
          rw [lookupA_eraseA_self] at hl
          exact absurd hl (by simp)
        · rw [lookupA_eraseA_ne _ he] at hl
          exact hInv.lists_nodup uid' lids hl
      · intro uid' lids hl
        by_cases he : uid' = uid
        · subst he
          rw [lookupA_eraseA_self] at hl
          exact absurd hl (by simp)
        · rw [lookupA_eraseA_ne _ he] at hl
          exact hInv.lists_valid uid' lids hl

theorem libInv_add_item {s : LibrarySystem} {item : Item}
    (hav : item.is_available = true) (hInv : LibInv s) :
    LibInv (s.add_item item).1 := by
  unfold LibrarySystem.add_item
  split
  · exact hInv
  · next hc =>
    have hi : lookupA s.items item.item_id = none :=
      Option.not_isSome_iff_eq_none.mp hc
    have hcount : countActive s.loans item.item_id = 0 := by
      by_contra hne
      obtain ⟨p, hm, hcf⟩ :=
        exists_mem_of_countActive_pos (Nat.pos_of_ne_zero hne)
      obtain ⟨heq, hret⟩ := (countsFor_eq_true_iff p.2 item.item_id).mp hcf
      have hl : lookupA s.loans p.1 = some p.2 :=
        lookupA_of_mem_nodup hInv.loans_nodup (by
          rw [show (p.1, p.2) = p from rfl]
          exact hm)
      have := hInv.no_orphan p.1 p.2 hl hret
      rw [heq, hi] at this
      exact absurd this (by simp)
    refine ⟨hInv.users_nodup, ?_, hInv.loans_nodup, hInv.active_nodup,
      hInv.index_iff, hInv.lists_nodup, hInv.lists_valid, ?_, ?_,
      hInv.at_most_one⟩
    · exact nodup_keysOf_append_fresh item hInv.items_nodup
        ((lookupA_eq_none_iff _ _).mp hi)
    · intro lid loan hl hret
      exact lookupA_append_isSome _ (hInv.no_orphan lid loan hl hret)
    · intro iid' item' hl
      by_cases he : iid' = item.item_id
      · subst he
        rw [lookupA_append_single_self item hi] at hl
        obtain rfl : item' = item := by
          injection hl with h1
          exact h1.symm
        rw [hav, hcount]
        simp
      · rw [lookupA_append_single_ne item he] at hl
        exact hInv.avail_iff iid' item' hl

theorem libInv_remove_item {s : LibrarySystem} (iid : String)
    (hInv : LibInv s) : LibInv (s.remove_item iid).1 := by
  unfold LibrarySystem.remove_item
  split
  · exact hInv
  · next item heq =>
    split
    · exact hInv
    · next hav =>
      have hava : item.is_available = true := by
        cases hb : item.is_available
        · rw [hb] at hav
          exact absurd rfl hav
        · rfl
      have hcount := (hInv.avail_iff iid item heq).mp hava
      refine ⟨hInv.users_nodup, nodup_keysOf_eraseA iid hInv.items_nodup,
        hInv.loans_nodup, hInv.active_nodup, hInv.index_iff,
        hInv.lists_nodup, hInv.lists_valid, ?_, ?_, hInv.at_most_one⟩
      · intro lid loan hl hret
        simp only [] at hl
        have horig := hInv.no_orphan lid loan hl hret
        by_cases he : loan.item_id = iid
        · exfalso
          have hc : countsFor loan iid = true :=
            (countsFor_eq_true_iff loan iid).mpr ⟨he, hret⟩
          have hpos := countActive_pos_of_mem (mem_of_lookupA_some hl) hc
          omega
        · rw [lookupA_eraseA_ne _ he]
          exact horig
      · intro iid' item' hl
        by_cases he : iid' = iid
        · subst he
          rw [lookupA_eraseA_self] at hl
          exact absurd hl (by simp)
        · rw [lookupA_eraseA_ne _ he] at hl
          exact hInv.avail_iff iid' item' hl

/-! ### Unfolding lemmas for the success and failure branches -/

theorem findActiveLoan_some {loans : List (Nat × Loan)} {iid : String}
    {lids : List Nat} {lid : Nat} {loan : Loan}
    (h : findActiveLoan loans iid lids = some (lid, loan)) :
    lid ∈ lids ∧ lookupA loans lid = some loan ∧
      loan.item_id = iid ∧ loan.is_returned = false := by
  induction lids with
  | nil => simp [findActiveLoan] at h
  | cons a rest ih =>
    simp only [findActiveLoan] at h
    split at h
    · rename_i la hla
      split at h
      · rename_i hc
        injection h with h1
        obtain ⟨rfl, rfl⟩ : a = lid ∧ la = loan :=
          ⟨congrArg Prod.fst h1, congrArg Prod.snd h1⟩
        exact ⟨List.mem_cons_self a rest, hla, hc.1, hc.2⟩
      · obtain ⟨hm, hrest⟩ := ih h
        exact ⟨List.mem_cons_of_mem _ hm, hrest⟩
    · obtain ⟨hm, hrest⟩ := ih h
      exact ⟨List.mem_cons_of_mem _ hm, hrest⟩

theorem renew_loan_some {l : Loan} {d now : Int} {l' : Loan}
    (h : l.renew_loan d now = some l') :
    l' = { l with
           date_due := l.date_due + d * minutesPerDay
           renewal_count := l.renewal_count + 1 } ∧
      l.is_returned = false ∧ l.renewal_count < Loan.maxRenewals ∧
      l.is_overdue now = false := by
  unfold Loan.renew_loan at h
  split at h
  · exact absurd h (by simp)
  · next h1 =>
    split at h
    · exact absurd h (by simp)
    · next h2 =>
      split at h
      · exact absurd h (by simp)
      · next h3 =>
        injection h with h4
        refine ⟨h4.symm, by simpa using h1, Nat.lt_of_not_le h2, by simpa using h3⟩

theorem renew_loan_none_iff (l : Loan) (d now : Int) :
    l.renew_loan d now = none ↔ l.can_renew now = false := by
  unfold Loan.renew_loan Loan.can_renew
  by_cases h1 : l.is_returned
  · simp [h1]
  · by_cases h2 : Loan.maxRenewals ≤ l.renewal_count
    · simp [h1, h2, Nat.not_lt_of_le h2]
    · by_cases h3 : l.is_overdue now
      · simp [h1, h2, h3, Nat.lt_of_not_le h2]
      · simp [h1, h2, h3, Nat.lt_of_not_le h2]

theorem return_item_some {l : Loan} {rate : Rat} {t : Int} {l' : Loan}
    {f : Rat} (h : l.return_item rate t = some (l', f)) :
    l.is_returned = false ∧
      l' = { l with
             date_returned := some t
             is_returned := true
             fine_amount :=
               (if l.date_due < t
                then ((timedeltaDays (t - l.date_due) : Int) : Rat) * rate
                else 0) } ∧
      f = (if l.date_due < t
           then ((timedeltaDays (t - l.date_due) : Int) : Rat) * rate
           else 0) := by
  simp only [Loan.return_item] at h
  split at h
  · exact absurd h (by simp)
  · next h1 =>
    simp only [Option.some.injEq, Prod.mk.injEq] at h
    exact ⟨by simpa using h1, h.1.symm, h.2.symm⟩

theorem item_check_out_some {i : Item} {uid : String} {now : Int} {i' : Item}
    (h : i.check_out uid now = some i') :
    i.is_available = true ∧
      i' = { i with
             is_available := false
             current_borrower := some uid
             checkout_date := some now } := by
  unfold Item.check_out at h
  split at h
  · exact absurd h (by simp)
  · next hc =>
    injection h with h1
    exact ⟨by simpa using hc, h1.symm⟩

theorem item_check_in_some {i i' : Item} (h : i.check_in = some i') :
    i.is_available = false ∧
      i' = { i with
             is_available := true
             current_borrower := none
             checkout_date := none } := by
  unfold Item.check_in at h
  split at h
  · exact absurd h (by simp)
  · next hc =>
    injection h with h1
    exact ⟨by simpa using hc, h1.symm⟩

theorem item_check_in_none {i : Item} (h : i.check_in = none) :
    i.is_available = true := by
  unfold Item.check_in at h
  split at h
  · next hc => exact hc
  · exact absurd h (by simp)

theorem lookupA_replaceA_isSome {κ β : Type} [DecidableEq κ]
    (l : List (κ × β)) (k : κ) (v : β) (k' : κ) :
    (lookupA (replaceA l k v) k').isSome = (lookupA l k').isSome := by
  by_cases he : k' = k
  · subst he
    rw [lookupA_replaceA_self]
    exact Option.isSome_map ..
  · rw [lookupA_replaceA_ne _ _ he]

theorem countActive_replaceA_same {loans : List (Nat × Loan)} {lid : Nat}
    {loan loan' : Loan} (iid : String)
    (hnd : (keysOf loans).Nodup) (h : lookupA loans lid = some loan)
    (hsame : countsFor loan' iid = countsFor loan iid) :
    countActive (replaceA loans lid loan') iid = countActive loans iid := by
  have heq := @countActive_replaceA _ _ _ loan' iid hnd h
  rw [hsame] at heq
  exact Nat.add_right_cancel heq

theorem countActive_replaceA_deactivate {loans : List (Nat × Loan)}
    {lid : Nat} {loan loan' : Loan} (iid : String)
    (hnd : (keysOf loans).Nodup) (h : lookupA loans lid = some loan)
    (hold : countsFor loan iid = true) (hnew : countsFor loan' iid = false) :
    countActive (replaceA loans lid loan') iid + 1 = countActive loans iid := by
  have heq := @countActive_replaceA _ _ _ loan' iid hnd h
  rw [hold, hnew] at heq
  simpa using heq

theorem countActive_replaceA_le {loans : List (Nat × Loan)} {lid : Nat}
    {loan loan' : Loan} (iid : String)
    (hnd : (keysOf loans).Nodup) (h : lookupA loans lid = some loan) :
    countActive (replaceA loans lid loan') iid ≤ countActive loans iid
      + (if countsFor loan' iid then 1 else 0) := by
  have heq := @countActive_replaceA _ _ _ loan' iid hnd h
  omega

theorem keysOf_updateUserCheckin (users : List (String × User))
    (uid iid : String) (lid : Nat) (fine : Rat) :
    keysOf (updateUserCheckin users uid iid lid fine) = keysOf users := by
  unfold updateUserCheckin
  split
  · rw [keysOf_replaceA]
  · rfl

theorem lookupA_updateUserCheckin_isSome (users : List (String × User))
    (uid iid : String) (lid : Nat) (fine : Rat) (uid' : String) :
    (lookupA (updateUserCheckin users uid iid lid fine) uid').isSome
      = (lookupA users uid').isSome := by
  unfold updateUserCheckin
  split
  · rw [lookupA_replaceA_isSome]
  · rfl

theorem libInv_renew {s : LibrarySystem} (uid iid : String) (now : Int)
    (hInv : LibInv s) : LibInv (s.renew_loan uid iid now).1 := by
  unfold LibrarySystem.renew_loan
  split
  · exact hInv
  · next lid loan hfind =>
    split
    · next loan' hrenew =>
      obtain ⟨hm, hlk, hitem, hret⟩ := findActiveLoan_some hfind
      obtain ⟨hl', hret2, hcnt, hov⟩ := renew_loan_some hrenew
      have hitem' : loan'.item_id = loan.item_id := by rw [hl']
      have hret' : loan'.is_returned = loan.is_returned := by rw [hl']
      have huser' : loan'.user_id = loan.user_id := by rw [hl']
      have hcf : ∀ iid', countsFor loan' iid' = countsFor loan iid' := by
        intro iid'
        rw [hl']
        rfl
      refine ⟨hInv.users_nodup, hInv.items_nodup, ?_, hInv.active_nodup,
        hInv.index_iff, hInv.lists_nodup, ?_, ?_, ?_, ?_⟩
      · simp only []
        rw [keysOf_replaceA]
        exact hInv.loans_nodup
      · intro uid' lids hl lid' hmem
        obtain ⟨loan₂, hlk₂, hu₂, hr₂⟩ :=
          hInv.lists_valid uid' lids hl lid' hmem
        by_cases he : lid' = lid
        · subst he
          refine ⟨loan', ?_, ?_, ?_⟩
          · simp only []
            rw [lookupA_replaceA_self, hlk]
            rfl
          · rw [hlk] at hlk₂
            injection hlk₂ with h2
            rw [huser', h2]
            exact hu₂
          · rw [hret']
            exact hret
        · refine ⟨loan₂, ?_, hu₂, hr₂⟩
          simp only []
          rw [lookupA_replaceA_ne _ _ he]
          exact hlk₂
      · intro lid' loan₂ hlk₂ hr₂
        simp only [] at hlk₂ ⊢
        by_cases he : lid' = lid
        · subst he
          rw [lookupA_replaceA_self, hlk, Option.map_some'] at hlk₂
          injection hlk₂ with h2
          rw [← h2, hitem']
          exact hInv.no_orphan _ loan hlk hret
        · rw [lookupA_replaceA_ne _ _ he] at hlk₂
          exact hInv.no_orphan lid' loan₂ hlk₂ hr₂
      · intro iid' item₂ hli
        simp only [] at hli ⊢
        rw [countActive_replaceA_same iid' hInv.loans_nodup hlk (hcf iid')]
        exact hInv.avail_iff iid' item₂ hli
      · intro iid'
        simp only []
        rw [countActive_replaceA_same iid' hInv.loans_nodup hlk (hcf iid')]
        exact hInv.at_most_one iid'
    · exact hInv

theorem libInv_check_out {s : LibrarySystem} {uid iid : String} {lid : Nat}
    {now : Int} {s' : LibrarySystem} {ok : Bool} {msg : String}
    (hInv : LibInv s) (hfresh : lookupA s.loans lid = none)
    (h : s.check_out_item uid iid lid now = some (s', ok, msg)) :
    LibInv s' := by
  simp only [LibrarySystem.check_out_item] at h
  split at h
  · simp only [Option.some.injEq, Prod.mk.injEq] at h
    obtain ⟨rfl, -, -⟩ := h
    exact hInv
  · rename_i user hu
    split at h
    · simp only [Option.some.injEq, Prod.mk.injEq] at h
      obtain ⟨rfl, -, -⟩ := h
      exact hInv
    · rename_i item hi
      split at h
      · simp only [Option.some.injEq, Prod.mk.injEq] at h
        obtain ⟨rfl, -, -⟩ := h
        exact hInv
      · split at h
        · simp only [Option.some.injEq, Prod.mk.injEq] at h
          obtain ⟨rfl, -, -⟩ := h
          exact hInv
        · rename_i hav0
          split at h
          · simp only [Option.some.injEq, Prod.mk.injEq] at h
            obtain ⟨rfl, -, -⟩ := h
            exact hInv
          · rename_i item' hco
            split at h
            · exact absurd h (by simp)
            · rename_i lids hal
              simp only [Option.some.injEq, Prod.mk.injEq] at h
              obtain ⟨rfl, -, -⟩ := h
              have hav : item.is_available = true := by simpa using hav0
              have hcount0 : countActive s.loans iid = 0 :=
                (hInv.avail_iff iid item hi).mp hav
              have hcfLN : countsFor
                  (Loan.create lid uid iid item.get_loan_period now) iid
                    = true := by
                simp [countsFor, Loan.create]
              have hcfLNne : ∀ iid', iid' ≠ iid → countsFor
                  (Loan.create lid uid iid item.get_loan_period now) iid'
                    = false := by
                intro iid' hne
                simp [countsFor, Loan.create, Ne.symm hne]
              refine ⟨?_, ?_, ?_, ?_, ?_, ?_, ?_, ?_, ?_, ?_⟩
              · simp only []
                rw [keysOf_replaceA]
                exact hInv.users_nodup
              · simp only []
                rw [keysOf_replaceA]
                exact hInv.items_nodup
              · simp only []
                exact nodup_keysOf_append_fresh _ hInv.loans_nodup
                  ((lookupA_eq_none_iff _ _).mp hfresh)
              · simp only []
                rw [keysOf_replaceA]
                exact hInv.active_nodup
              · intro uid'
                simp only []
                rw [lookupA_replaceA_isSome, lookupA_replaceA_isSome]
                exact hInv.index_iff uid'
              · intro uid' lids' hl
                simp only [] at hl
                by_cases he : uid' = uid
                · subst he
                  rw [lookupA_replaceA_self, hal, Option.map_some'] at hl
                  injection hl with h2
                  subst h2
                  have hnotin : lid ∉ lids := by
                    intro hmem
                    obtain ⟨loan₂, hlk₂, -, -⟩ :=
                      hInv.lists_valid uid' lids hal lid hmem
                    rw [hfresh] at hlk₂
                    exact absurd hlk₂ (by simp)
                  rw [List.nodup_append]
                  refine ⟨hInv.lists_nodup uid' lids hal,
                    List.nodup_singleton lid, ?_⟩
                  intro a ha hb
                  rw [List.mem_singleton] at hb
                  exact hnotin (hb ▸ ha)
                · rw [lookupA_replaceA_ne _ _ he] at hl
                  exact hInv.lists_nodup uid' lids' hl
              · intro uid' lids' hl lid' hmem
                simp only [] at hl ⊢
                by_cases he : uid' = uid
                · subst he
                  rw [lookupA_replaceA_self, hal, Option.map_some'] at hl
                  injection hl with h2
                  subst h2
                  rcases List.mem_append.mp hmem with hm1 | hm2
                  · obtain ⟨loan₂, hlk₂, hu₂, hr₂⟩ :=
                      hInv.lists_valid uid' lids hal lid' hm1
                    exact ⟨loan₂, lookupA_append_some _ hlk₂, hu₂, hr₂⟩
                  · rw [List.mem_singleton] at hm2
                    subst hm2
                    exact ⟨Loan.create lid' uid' iid item.get_loan_period now,
                      lookupA_append_single_self _ hfresh, rfl, rfl⟩
                · rw [lookupA_replaceA_ne _ _ he] at hl
                  obtain ⟨loan₂, hlk₂, hu₂, hr₂⟩ :=
                    hInv.lists_valid uid' lids' hl lid' hmem
                  exact ⟨loan₂, lookupA_append_some _ hlk₂, hu₂, hr₂⟩
              · intro lid' loan₂ hlk₂ hr₂
                simp only [] at hlk₂ ⊢
                by_cases he : lid' = lid
                · subst he
                  rw [lookupA_append_single_self _ hfresh] at hlk₂
                  injection hlk₂ with h2
                  rw [← h2,
                    show (Loan.create lid' uid iid item.get_loan_period
                      now).item_id = iid from rfl,
                    lookupA_replaceA_self, hi, Option.map_some']
                  rfl
                · rw [lookupA_append_single_ne _ he] at hlk₂
                  rw [lookupA_replaceA_isSome]
                  exact hInv.no_orphan lid' loan₂ hlk₂ hr₂
              · intro iid' item₂ hli
                simp only [] at hli ⊢
                rw [countActive_append, countActive_singleton]
                by_cases he : iid' = iid
                · subst he
                  rw [lookupA_replaceA_self, hi, Option.map_some'] at hli
                  injection hli with h2
                  obtain ⟨-, hrec⟩ := item_check_out_some hco
                  rw [← h2, hrec, hcount0, hcfLN]
                  simp
                · rw [lookupA_replaceA_ne _ _ he] at hli
                  rw [hcfLNne iid' he, if_neg Bool.false_ne_true,
                    Nat.add_zero]
                  exact hInv.avail_iff iid' item₂ hli
              · intro iid'
                simp only []
                rw [countActive_append, countActive_singleton]
                by_cases he : iid' = iid
                · subst he
                  rw [hcount0, hcfLN]
                  simp
                · rw [hcfLNne iid' he, if_neg Bool.false_ne_true,
                    Nat.add_zero]
                  exact hInv.at_most_one iid'

theorem libInv_check_in {s : LibrarySystem} {uid iid : String} {rate : Rat}
    {now : Int} {s' : LibrarySystem} {ok : Bool} {msg : String} {fine : Rat}
    (hInv : LibInv s)
    (h : s.check_in_item uid iid rate now = some (s', ok, msg, fine)) :
    LibInv s' := by
  simp only [LibrarySystem.check_in_item] at h
  split at h
  · simp only [Option.some.injEq, Prod.mk.injEq] at h
    obtain ⟨rfl, -, -, -⟩ := h
    exact hInv
  · rename_i lid loan hfind
    obtain ⟨hm, hlk, hitem, hretF⟩ := findActiveLoan_some hfind
    have hcfloan : countsFor loan iid = true :=
      (countsFor_eq_true_iff loan iid).mpr ⟨hitem, hretF⟩
    split at h
    · simp only [Option.some.injEq, Prod.mk.injEq] at h
      obtain ⟨rfl, -, -, -⟩ := h
      exact hInv
    · rename_i item hi
      split at h
      · exact absurd h (by simp)
      · rename_i loan' fineC hre
        obtain ⟨hret0, hl', hfC⟩ := return_item_some hre
        have hcf' : ∀ iid', countsFor loan' iid' = false := by
          intro iid'
          rw [hl']
          simp [countsFor]
        split at h
        · rename_i hci0
          exfalso
          have hava := item_check_in_none hci0
          have hcount0 := (hInv.avail_iff iid item hi).mp hava
          have hpos := countActive_pos_of_mem (mem_of_lookupA_some hlk) hcfloan
          omega
        · rename_i item' hci
          obtain ⟨hunav, hrec'⟩ := item_check_in_some hci
          simp only [Option.some.injEq, Prod.mk.injEq] at h
          obtain ⟨rfl, -, -, rfl⟩ := h
          obtain ⟨lids, hal⟩ : ∃ lids,
              lookupA s.active_loans uid = some lids := by
            cases hx : lookupA s.active_loans uid with
            | none =>
              rw [hx] at hm
              simp at hm
            | some lids => exact ⟨lids, rfl⟩
          have hmem : lid ∈ lids := by
            rw [hal] at hm
            simpa using hm
          have hlnodup := hInv.lists_nodup uid lids hal
          have huserloan : loan.user_id = uid := by
            obtain ⟨loanX, hlkX, huX, -⟩ :=
              hInv.lists_valid uid lids hal lid hmem
            rw [hlk] at hlkX
            injection hlkX with h2
            rw [← h2] at huX
            exact huX
          have hcount1 : countActive s.loans iid = 1 := by
            have hpos := countActive_pos_of_mem (mem_of_lookupA_some hlk) hcfloan
            have hle := hInv.at_most_one iid
            omega
          have hdeact := countActive_replaceA_deactivate iid
            hInv.loans_nodup hlk hcfloan (hcf' iid)
          refine ⟨?_, ?_, ?_, ?_, ?_, ?_, ?_, ?_, ?_, ?_⟩
          · simp only []
            rw [keysOf_updateUserCheckin]
            exact hInv.users_nodup
          · simp only []
            rw [keysOf_replaceA]
            exact hInv.items_nodup
          · simp only []
            rw [keysOf_replaceA]
            exact hInv.loans_nodup
          · simp only []
            rw [keysOf_replaceA]
            exact hInv.active_nodup
          · intro uid'
            simp only []
            rw [lookupA_replaceA_isSome, lookupA_updateUserCheckin_isSome]
            exact hInv.index_iff uid'
          · intro uid' lids' hl
            simp only [] at hl
            by_cases he : uid' = uid
            · subst he
              rw [lookupA_replaceA_self, hal, Option.map_some'] at hl
              injection hl with h2
              rw [← h2, Option.getD_some]
              exact List.Nodup.erase lid hlnodup
            · rw [lookupA_replaceA_ne _ _ he] at hl
              exact hInv.lists_nodup uid' lids' hl
          · intro uid' lids' hl lid' hmem'
            simp only [] at hl ⊢
            by_cases he : uid' = uid
            · subst he
              rw [lookupA_replaceA_self, hal, Option.map_some'] at hl
              injection hl with h2
              rw [← h2, Option.getD_some] at hmem'
              obtain ⟨hne', hmem2⟩ :=
                (List.Nodup.mem_erase_iff hlnodup).mp hmem'
              obtain ⟨loan₂, hlk₂, hu₂, hr₂⟩ :=
                hInv.lists_valid uid' lids hal lid' hmem2
              refine ⟨loan₂, ?_, hu₂, hr₂⟩
              rw [lookupA_replaceA_ne _ _ hne']
              exact hlk₂
            · obtain ⟨loan₂, hlk₂, hu₂, hr₂⟩ :=
                hInv.lists_valid uid' lids' (by
                  rw [lookupA_replaceA_ne _ _ he] at hl
                  exact hl) lid' hmem'
              have hne' : lid' ≠ lid := by
                intro hx
                subst hx
                rw [hlk] at hlk₂
                injection hlk₂ with h2
                rw [← h2] at hu₂
                rw [huserloan] at hu₂
                exact he hu₂.symm
              refine ⟨loan₂, ?_, hu₂, hr₂⟩
              rw [lookupA_replaceA_ne _ _ hne']
              exact hlk₂
          · intro lid' loan₂ hlk₂ hr₂
            simp only [] at hlk₂ ⊢
            by_cases he : lid' = lid
            · subst he
              rw [lookupA_replaceA_self, hlk, Option.map_some'] at hlk₂
              injection hlk₂ with h2
              exfalso
              rw [← h2] at hr₂
              rw [hl'] at hr₂
              simp at hr₂
            · rw [lookupA_replaceA_ne _ _ he] at hlk₂
              rw [lookupA_replaceA_isSome]
              exact hInv.no_orphan lid' loan₂ hlk₂ hr₂
          · intro iid' item₂ hli
            simp only [] at hli ⊢
            by_cases he : iid' = iid
            · subst he
              rw [lookupA_replaceA_self, hi, Option.map_some'] at hli
              injection hli with h2
              rw [← h2, hrec']
              constructor
              · intro
                omega
              · intro
                rfl
            · rw [lookupA_replaceA_ne _ _ he] at hli
              have hcfne : countsFor loan iid' = false := by
                simp [countsFor, hitem, Ne.symm he]
              rw [countActive_replaceA_same iid' hInv.loans_nodup hlk
                (by rw [hcf' iid', hcfne])]
              exact hInv.avail_iff iid' item₂ hli
          · intro iid'
            simp only []
            by_cases he : iid' = iid
            · subst he
              omega
            · have hcfne : countsFor loan iid' = false := by
                simp [countsFor, hitem, Ne.symm he]
              rw [countActive_replaceA_same iid' hInv.loans_nodup hlk
                (by rw [hcf' iid', hcfne])]
              exact hInv.at_most_one iid'

/-! ### Reachable directory states -/

/-- Directory states reachable from a fresh `LibrarySystem` through the
public operations. `register_user` may install any user value; `add_item`
requires a constructor-fresh (available) item, as `LibraryItem.__init__`
guarantees; `check_out_item` requires the supplied loan identifier to be
unused, as uuid4 collision freedom guarantees. -/
inductive Reachable : LibrarySystem → Prop where
  | init (name : String) : Reachable (LibrarySystem.init name)
  | register_user {s : LibrarySystem} (u : User) :
      Reachable s → Reachable (s.register_user u).1
  | remove_user {s : LibrarySystem} (uid : String) :
      Reachable s → Reachable (s.remove_user uid).1
  | add_item {s : LibrarySystem} {item : Item} :
      Reachable s → item.is_available = true → Reachable (s.add_item item).1
  | remove_item {s : LibrarySystem} (iid : String) :
      Reachable s → Reachable (s.remove_item iid).1
  | check_out_item {s : LibrarySystem} {uid iid : String} {lid : Nat}
      {now : Int} {s' : LibrarySystem} {ok : Bool} {msg : String} :
      Reachable s → lookupA s.loans lid = none →
      s.check_out_item uid iid lid now = some (s', ok, msg) → Reachable s'
  | check_in_item {s : LibrarySystem} {uid iid : String} {rate : Rat}
      {now : Int} {s' : LibrarySystem} {ok : Bool} {msg : String}
      {fine : Rat} :
      Reachable s →
      s.check_in_item uid iid rate now = some (s', ok, msg, fine) →
      Reachable s'
  | renew_loan {s : LibrarySystem} (uid iid : String) (now : Int) :
      Reachable s → Reachable (s.renew_loan uid iid now).1

/-- Every reachable directory state satisfies the integrity invariant. -/
theorem reachable_libInv {s : LibrarySystem} (h : Reachable s) : LibInv s := by
  induction h with
  | init name => exact libInv_init name
  | register_user u _ ih => exact libInv_register u ih
  | remove_user uid _ ih => exact libInv_remove_user uid ih
  | add_item _ hav ih => exact libInv_add_item hav ih
  | remove_item iid _ ih => exact libInv_remove_item iid ih
  | check_out_item _ hfresh hop ih => exact libInv_check_out ih hfresh hop
  | check_in_item _ hop ih => exact libInv_check_in ih hop
  | renew_loan uid iid now _ ih => exact libInv_renew uid iid now ih

/-! ### Concrete values used by witnesses and counterexamples -/

/-- A member as `Member.__init__` builds it (expiry one year out, in
minutes). -/
def memAlice : Member :=
  { user_id := "u1"
    name := "Alice"
    email := "alice@example.com"
    phone := none
    borrowed_items := []
    loan_history := []
    fines_owed := 0
    membership_expiry := 525600
    registration_date := 0 }

/-- A member carrying $15 of fines, above the $10 gate. -/
def memFined : Member :=
  { memAlice with user_id := "u2", fines_owed := 15 }

/-- A member owing exactly $5. -/
def memOwes5 : Member :=
  { memAlice with user_id := "u3", fines_owed := 5 }

def bookDune : Item :=
  { item_id := "b1"
    title := "Dune"
    is_available := true
    current_borrower := none
    checkout_date := none
    itype := ItemType.book }

/-- A magazine currently checked out to u1. -/
def magTime : Item :=
  { item_id := "m1"
    title := "Time"
    is_available := false
    current_borrower := some "u1"
    checkout_date := some 0
    itype := ItemType.magazine }

/-- A system holding one registered member and one available book. -/
def sysW : LibrarySystem :=
  (((LibrarySystem.init "City Library").register_user
    (User.member memAlice)).1.add_item bookDune).1

/-- A magazine loan created with the magazine's 7-day period. -/
def loanMag : Loan := Loan.create 7 "u1" "m1" 7 0

/-- A system where u1 has the magazine m1 out on loan. -/
def sysMag : LibrarySystem :=
  { name := "City Library"
    items := [("m1", magTime)]
    users := [("u1", User.member memAlice)]
    loans := [(7, loanMag)]
    active_loans := [("u1", [7])] }

/-- An active loan whose item identifier is absent from the registry. -/
def loanOrphan : Loan := Loan.create 3 "u1" "ghost" 21 0

/-- A system holding an orphaned active loan. -/
def sysOrphan : LibrarySystem :=
  { name := "City Library"
    items := []
    users := [("u1", User.member memAlice)]
    loans := [(3, loanOrphan)]
    active_loans := [("u1", [3])] }

/-- A system with a fined member and an available book. -/
def sysFined : LibrarySystem :=
  { name := "City Library"
    items := [("b1", bookDune)]
    users := [("u2", User.member memFined)]
    loans := []
    active_loans := [("u2", [])] }

/-! ### Claim theorems -/

/-- C1: in every reachable directory state, every registered item's
availability flag equals (number of non-returned loans referencing it = 0) —
0 active loans means available, 1 means unavailable — and no reachable state
gives an item more than one active loan. Reachability is closure under the
seven directory operations, so this holds after every operation. -/
theorem c1_availability_invariant {s : LibrarySystem} (hs : Reachable s) :
    ∀ iid item, lookupA s.items iid = some item →
      (item.is_available = true ↔ countActive s.loans iid = 0) ∧
      countActive s.loans iid ≤ 1 := by
  intro iid item hitem
  have hInv := reachable_libInv hs
  exact ⟨hInv.avail_iff iid item hitem, hInv.at_most_one iid⟩

theorem c1_availability_invariant_witness :
    (bookDune.is_available = true ↔ countActive sysW.loans "b1" = 0) ∧
      countActive sysW.loans "b1" ≤ 1 :=
  c1_availability_invariant
    (@Reachable.add_item _ bookDune
      (Reachable.register_user (User.member memAlice)
        (Reachable.init "City Library")) rfl)
    "b1" bookDune rfl

/-- C9: in every reachable state the key set of the user registry equals the
key set of the user-to-active-loan-ids index, so `check_out_item`'s direct
indexing of that map never raises the `KeyError` modelled by `none`. -/
theorem c9_index_keys_match {s : LibrarySystem} (hs : Reachable s) :
    (∀ uid, (lookupA s.users uid).isSome = true ↔
      (lookupA s.active_loans uid).isSome = true) ∧
    (∀ uid iid lid now, s.check_out_item uid iid lid now ≠ none) := by
  have hInv := reachable_libInv hs
  constructor
  · intro uid
    exact (hInv.index_iff uid).symm
  · intro uid iid lid now hnone
    simp only [LibrarySystem.check_out_item] at hnone
    split at hnone
    · simp at hnone
    · rename_i user hu
      split at hnone
      · simp at hnone
      · rename_i item hi
        split at hnone
        · simp at hnone
        · split at hnone
          · simp at hnone
          · split at hnone
            · simp at hnone
            · split at hnone
              · rename_i hal
                have h1 : (lookupA s.users uid).isSome = true := by
                  rw [hu]
                  rfl
                have h2 := (hInv.index_iff uid).mpr h1
                rw [hal] at h2
                simp at h2
              · simp at hnone

theorem c9_index_keys_match_witness :
    ((lookupA sysW.users "u1").isSome = true ↔
      (lookupA sysW.active_loans "u1").isSome = true) ∧
    sysW.check_out_item "u1" "b1" 1 0 ≠ none := by
  have h := c9_index_keys_match
    (@Reachable.add_item _ bookDune
      (Reachable.register_user (User.member memAlice)
        (Reachable.init "City Library")) rfl)
  exact ⟨h.1 "u1", h.2 "u1" "b1" 1 0⟩

/-- C2: checking out an item that exists but is unavailable fails and
returns the directory state unchanged (no loan added, no index change, no
availability or borrowed-items change), and more generally every failing
checkout returns the input state unchanged — the operation is atomic. -/
theorem c2_checkout_unavailable_atomic (s : LibrarySystem)
    (uid iid : String) (lid : Nat) (now : Int) (item : Item)
    (hitem : lookupA s.items iid = some item)
    (hunav : item.is_available = false) :
    (∃ msg, s.check_out_item uid iid lid now = some (s, false, msg)) ∧
    (∀ s' ok msg, s.check_out_item uid iid lid now = some (s', ok, msg) →
      ok = false → s' = s) := by
  constructor
  · cases hu : lookupA s.users uid with
    | none =>
      refine ⟨"User not found", ?_⟩
      simp [LibrarySystem.check_out_item, hu]
    | some user =>
      by_cases hcb : user.can_borrow_item item now = true
      · refine ⟨"Item is not available", ?_⟩
        simp [LibrarySystem.check_out_item, hu, hitem, hcb, hunav]
      · have hcb' : user.can_borrow_item item now = false := by
          simpa using hcb
        refine ⟨"User cannot borrow this item (check limits, fines, or membership status)", ?_⟩
        simp [LibrarySystem.check_out_item, hu, hitem, hcb']
  · intro s' ok msg hop hok
    subst hok
    simp only [LibrarySystem.check_out_item] at hop
    split at hop
    · simp only [Option.some.injEq, Prod.mk.injEq] at hop
      exact hop.1.symm
    · split at hop
      · simp only [Option.some.injEq, Prod.mk.injEq] at hop
        exact hop.1.symm
      · split at hop
        · simp only [Option.some.injEq, Prod.mk.injEq] at hop
          exact hop.1.symm
        · split at hop
          · simp only [Option.some.injEq, Prod.mk.injEq] at hop
            exact hop.1.symm
          · split at hop
            · simp only [Option.some.injEq, Prod.mk.injEq] at hop
              exact hop.1.symm
            · split at hop
              · simp at hop
              · simp only [Option.some.injEq, Prod.mk.injEq] at hop
                exact absurd hop.2.1 (by simp)

theorem c2_checkout_unavailable_atomic_witness :
    (∃ msg, sysMag.check_out_item "u1" "m1" 9 0 = some (sysMag, false, msg)) ∧
    (∀ s' ok msg, sysMag.check_out_item "u1" "m1" 9 0 = some (s', ok, msg) →
      ok = false → s' = sysMag) :=
  c2_checkout_unavailable_atomic sysMag "u1" "m1" 9 0 magTime rfl rfl

/-- C10: if a user's index holds an active loan whose item identifier is
absent from the item registry, check-in returns failure with fine 0.0 and
the state — hence the still-unreturned loan — unchanged: the item lookup
happens before the loan is mutated. -/
theorem c10_orphan_checkin (s : LibrarySystem) (uid iid : String)
    (rate : Rat) (now : Int) (lid : Nat) (loan : Loan)
    (hfind : findActiveLoan s.loans iid
      ((lookupA s.active_loans uid).getD []) = some (lid, loan))
    (hmiss : lookupA s.items iid = none) :
    s.check_in_item uid iid rate now = some (s, false, "Item not found", 0) ∧
    loan.is_returned = false := by
  refine ⟨?_, (findActiveLoan_some hfind).2.2.2⟩
  simp [LibrarySystem.check_in_item, hfind, hmiss]

theorem c10_orphan_checkin_witness :
    sysOrphan.check_in_item "u1" "ghost" (1/2) 99 =
      some (sysOrphan, false, "Item not found", 0) ∧
    loanOrphan.is_returned = false :=
  c10_orphan_checkin sysOrphan "u1" "ghost" (1/2) 99 3 loanOrphan rfl rfl

/-- C3: a second `return_item` call on an already-returned loan raises
AlreadyReturned (modelled `none`) and the loan keeps exactly the returned
flag, fine amount and return date the first call set. -/
theorem c3_double_return (l : Loan) (rate rate2 : Rat) (t t2 : Int)
    (l' : Loan) (f : Rat) (h : l.return_item rate t = some (l', f)) :
    l'.return_item rate2 t2 = none ∧ l'.is_returned = true ∧
    l'.fine_amount = f ∧ l'.date_returned = some t := by
  obtain ⟨h0, hl', hf⟩ := return_item_some h
  subst hl'
  exact ⟨by simp [Loan.return_item], rfl, hf.symm, rfl⟩

/-- A 21-day book loan taken out at time 0. -/
def loanBook : Loan := Loan.create 1 "u1" "b1" 21 0

/-- The loan `loanBook` after an on-time return at time 10. -/
def loanRet1 : Loan :=
  { loan_id := 1
    user_id := "u1"
    item_id := "b1"
    date_borrowed := 0
    date_due := 30240
    date_returned := some 10
    is_returned := true
    fine_amount := 0
    renewal_count := 0 }

theorem c3_double_return_witness :
    loanBook.return_item (1/2) 10 = some (loanRet1, 0) ∧
    (loanRet1.return_item (1/2) 99 = none ∧ loanRet1.is_returned = true ∧
     loanRet1.fine_amount = 0 ∧ loanRet1.date_returned = some 10) := by
  have h1 : loanBook.return_item (1/2) 10 = some (loanRet1, 0) := by decide
  exact ⟨h1, c3_double_return loanBook (1/2) (1/2) 10 99 loanRet1 0 h1⟩

/-- The operations a caller can perform on one loan: renew (the directory
passes 21 days) or return. -/
inductive LoanOp where
  | renew (days : Int) (now : Int)
  | giveBack (rate : Rat) (now : Int)

/-- Apply one loan operation; a refused renewal or return leaves the loan
as it was. -/
def applyLoanOp (l : Loan) : LoanOp → Loan
  | .renew days now => (l.renew_loan days now).getD l
  | .giveBack rate now => ((l.return_item rate now).map Prod.fst).getD l

theorem applyLoanOp_renewal_le (l : Loan) (op : LoanOp)
    (h : l.renewal_count ≤ 2) : (applyLoanOp l op).renewal_count ≤ 2 := by
  cases op with
  | renew days now =>
    cases hre : l.renew_loan days now with
    | none => simpa [applyLoanOp, hre] using h
    | some l' =>
      obtain ⟨hl', -, hcnt, -⟩ := renew_loan_some hre
      have hc : l'.renewal_count = l.renewal_count + 1 := by rw [hl']
      simp only [applyLoanOp, hre, Option.getD_some, hc]
      exact hcnt
  | giveBack rate now =>
    cases hre : l.return_item rate now with
    | none => simpa [applyLoanOp, hre] using h
    | some pr =>
      obtain ⟨l', f⟩ := pr
      obtain ⟨-, hl', -⟩ := return_item_some hre
      have hc : l'.renewal_count = l.renewal_count := by rw [hl']
      simp only [applyLoanOp, hre, Option.map_some', Option.getD_some, hc]
      exact h

theorem foldl_applyLoanOp_le (ops : List LoanOp) :
    ∀ l : Loan, l.renewal_count ≤ 2 →
    (ops.foldl applyLoanOp l).renewal_count ≤ 2 := by
  induction ops with
  | nil =>
    intro l h
    simpa using h
  | cons op rest ih =>
    intro l h
    exact ih _ (applyLoanOp_renewal_le l op h)

/-- C4: along any sequence of renew/return operations a loan's renewal count
never exceeds 2; a renewal succeeds exactly when `can_renew` holds
immediately before the call; a loan at renewal count 2 is always denied
(regardless of overdue or returned status); and a denied renewal leaves the
loan — due date and renewal count included — unchanged. -/
theorem c4_renewal_cap :
    (∀ (lid : Nat) (uid iid : String) (period now0 : Int)
      (ops : List LoanOp),
      (ops.foldl applyLoanOp
        (Loan.create lid uid iid period now0)).renewal_count ≤ 2) ∧
    (∀ (l : Loan) (days now : Int),
      (l.renew_loan days now).isSome = l.can_renew now) ∧
    (∀ (l : Loan) (days now : Int), l.renewal_count = 2 →
      l.renew_loan days now = none) ∧
    (∀ (l : Loan) (days now : Int), l.renew_loan days now = none →
      applyLoanOp l (LoanOp.renew days now) = l) := by
  refine ⟨?_, ?_, ?_, ?_⟩
  · intro lid uid iid period now0 ops
    exact foldl_applyLoanOp_le ops _ (by simp [Loan.create])
  · intro l days now
    cases hc : l.can_renew now with
    | false =>
      rw [(renew_loan_none_iff l days now).mpr hc]
      rfl
    | true =>
      cases hre : l.renew_loan days now with
      | none =>
        have hx := (renew_loan_none_iff l days now).mp hre
        rw [hc] at hx
        exact absurd hx (by simp)
      | some l' => rfl
  · intro l days now h
    rw [renew_loan_none_iff]
    simp [Loan.can_renew, h, Loan.maxRenewals]
  · intro l days now h
    simp [applyLoanOp, h]

/-- The loan `loanBook` with its renewals exhausted. -/
def loanTwice : Loan := { loanBook with renewal_count := 2 }

theorem c4_renewal_cap_witness :
    ([LoanOp.renew 21 5, LoanOp.renew 21 6, LoanOp.renew 21 7,
        LoanOp.renew 21 8].foldl applyLoanOp
      (Loan.create 4 "u1" "b1" 21 0)).renewal_count ≤ 2 ∧
    loanTwice.renew_loan 21 0 = none := by
  have h := c4_renewal_cap
  exact ⟨h.1 4 "u1" "b1" 21 0 _, h.2.2.1 loanTwice 21 0 rfl⟩

/-- C5 counterexample: for the active magazine loan in `sysMag` (loan
period 7 days), the directory's renewLoan succeeds but extends the due date
by 21 days, not by the loan's 7-day loanPeriodDays as the claim states. -/
theorem c5_counterexample :
    (sysMag.renew_loan "u1" "m1" 0).2.1 = true ∧
    lookupA (sysMag.renew_loan "u1" "m1" 0).1.loans 7 =
      some { loanMag with
             date_due := loanMag.date_due + 21 * minutesPerDay
             renewal_count := 1 } ∧
    magTime.get_loan_period = 7 ∧
    loanMag.date_due + 21 * minutesPerDay ≠
      loanMag.date_due + 7 * minutesPerDay := by
  refine ⟨by decide, by decide, rfl, by decide⟩

/-- C5 (amended): the directory's renewLoan on any active renewable loan
extends the due date by `Loan.renew_loan`'s default of 21 days — whatever
the item's loan period (21 coincides with loanPeriodDays only for Book
loans) — and increments the renewal count by 1. -/
theorem c5_renew_extends_default_21 (s : LibrarySystem) (uid iid : String)
    (now : Int) (lid : Nat) (loan : Loan)
    (hfind : findActiveLoan s.loans iid
      ((lookupA s.active_loans uid).getD []) = some (lid, loan))
    (hcan : loan.can_renew now = true) :
    (s.renew_loan uid iid now).2.1 = true ∧
    lookupA (s.renew_loan uid iid now).1.loans lid =
      some { loan with
             date_due := loan.date_due + 21 * minutesPerDay
             renewal_count := loan.renewal_count + 1 } := by
  obtain ⟨-, hlk, -, -⟩ := findActiveLoan_some hfind
  cases hre : loan.renew_loan 21 now with
  | none =>
    have hx := (renew_loan_none_iff loan 21 now).mp hre
    rw [hcan] at hx
    exact absurd hx (by simp)
  | some loan' =>
    obtain ⟨hl', -, -, -⟩ := renew_loan_some hre
    constructor
    · simp [LibrarySystem.renew_loan, hfind, hre]
    · simp only [LibrarySystem.renew_loan, hfind, hre]
      rw [lookupA_replaceA_self, hlk, Option.map_some', hl']

theorem c5_renew_extends_default_21_witness :
    (sysMag.renew_loan "u1" "m1" 0).2.1 = true ∧
    lookupA (sysMag.renew_loan "u1" "m1" 0).1.loans 7 =
      some { loanMag with
             date_due := loanMag.date_due + 21 * minutesPerDay
             renewal_count := loanMag.renewal_count + 1 } :=
  c5_renew_extends_default_21 sysMag "u1" "m1" 0 7 loanMag rfl rfl

/-- C6: returning an unreturned loan freezes and reports the final fine:
(whole floor days between due date and return time) times the daily rate
when the return is late, 0 otherwise. -/
theorem c6_return_fine (l : Loan) (rate : Rat) (t : Int)
    (h : l.is_returned = false) :
    l.return_item rate t = some
      ({ l with
         date_returned := some t
         is_returned := true
         fine_amount :=
           (if l.date_due < t
            then ((timedeltaDays (t - l.date_due) : Int) : Rat) * rate
            else 0) },
       (if l.date_due < t
        then ((timedeltaDays (t - l.date_due) : Int) : Rat) * rate
        else 0)) := by
  simp [Loan.return_item, h]

/-- A loan due immediately at time 0 (period 0 days). -/
def loanDueNow : Loan := Loan.create 2 "u1" "b1" 0 0

theorem c6_return_fine_witness :
    loanDueNow.return_item (1/2) 7200 = some
      ({ loanDueNow with
         date_returned := some 7200
         is_returned := true
         fine_amount := 5/2 }, 5/2) := by
  have hd : timedeltaDays (7200 - loanDueNow.date_due) = 5 := by decide
  have hlt : loanDueNow.date_due < 7200 := by decide
  have h := c6_return_fine loanDueNow (1/2) 7200 rfl
  rw [h, if_pos hlt, hd]
  simp only [Option.some.injEq, Prod.mk.injEq, Loan.mk.injEq]
  norm_num

/-- C7: a member's canBorrow is false exactly when the item is unavailable,
or the borrowed count is at or above the limit of 5, or the membership has
expired, or fines owed exceed the $10 threshold; consequently a member with
fines above $10 has canBorrow false and the directory's checkout fails with
the can-borrow message and no state change. -/
theorem c7_member_can_borrow :
    (∀ (m : Member) (item : Item) (now : Int),
      m.can_borrow_item item now = false ↔
        (item.is_available = false ∨ 5 ≤ m.borrowed_items.length ∨
         m.membership_expiry < now ∨ (10 : Rat) < m.fines_owed)) ∧
    (∀ (s : LibrarySystem) (uid iid : String) (lid : Nat) (now : Int)
      (m : Member) (item : Item),
      lookupA s.users uid = some (User.member m) →
      lookupA s.items iid = some item →
      (10 : Rat) < m.fines_owed →
      s.check_out_item uid iid lid now = some (s, false,
        "User cannot borrow this item (check limits, fines, or membership status)")) := by
  constructor
  · intro m item now
    by_cases h1 : (5 : Nat) ≤ m.borrowed_items.length <;>
    by_cases h2 : item.is_available = true <;>
    by_cases h3 : m.membership_expiry < now <;>
    by_cases h4 : (10 : Rat) < m.fines_owed <;>
      simp [Member.can_borrow_item, Member.get_borrowing_limit,
        memberBorrowingLimit, memberFineThreshold, h1, h2, h3, h4]
  · intro s uid iid lid now m item hu hi hfine
    have hcb : (User.member m).can_borrow_item item now = false := by
      simp only [User.can_borrow_item]
      by_cases h1 : m.get_borrowing_limit ≤ m.borrowed_items.length
      · simp [Member.can_borrow_item, h1]
      · by_cases h2 : item.is_available = true
        · by_cases h3 : m.membership_expiry < now
          · simp [Member.can_borrow_item, h1, h2, h3]
          · simp [Member.can_borrow_item, h1, h2, h3,
              memberFineThreshold, hfine]
        · simp [Member.can_borrow_item, h1, h2]
    simp [LibrarySystem.check_out_item, hu, hi, hcb]

theorem c7_member_can_borrow_witness :
    (memFined.can_borrow_item bookDune 0 = false ↔
      (bookDune.is_available = false ∨ 5 ≤ memFined.borrowed_items.length ∨
       memFined.membership_expiry < 0 ∨ (10 : Rat) < memFined.fines_owed)) ∧
    sysFined.check_out_item "u2" "b1" 11 0 = some (sysFined, false,
      "User cannot borrow this item (check limits, fines, or membership status)") := by
  have h := c7_member_can_borrow
  exact ⟨h.1 memFined bookDune 0,
    h.2 sysFined "u2" "b1" 11 0 memFined bookDune rfl rfl (by decide)⟩

/-- C8 counterexample: a member owing $5 who pays $10 (an amount greater
than the balance) is rejected — `pay_fine` returns false and leaves the
balance at $5, not clamped to 0 as the claim states. -/
theorem c8_counterexample :
    (memOwes5.pay_fine 10).2 = false ∧
    (memOwes5.pay_fine 10).1.fines_owed = 5 ∧ (5 : Rat) ≠ 0 := by
  refine ⟨by decide, by decide, by norm_num⟩

/-- C8 (amended): payFine succeeds exactly for positive amounts no greater
than the balance, subtracting the amount (so paying exactly the balance
yields 0); an amount above the balance is rejected with no change; starting
from a non-negative balance, fines owed never become negative. -/
theorem c8_pay_fine (m : Member) (amount : Rat) (h0 : 0 ≤ m.fines_owed) :
    ((m.pay_fine amount).2 = true ↔
      0 < amount ∧ amount ≤ m.fines_owed) ∧
    (m.pay_fine amount).1.fines_owed =
      (if 0 < amount ∧ amount ≤ m.fines_owed
       then m.fines_owed - amount else m.fines_owed) ∧
    0 ≤ (m.pay_fine amount).1.fines_owed := by
  by_cases h : amount ≤ 0 ∨ m.fines_owed < amount
  · have hcond : ¬(0 < amount ∧ amount ≤ m.fines_owed) := by
      rcases h with h | h
      · intro hc
        exact absurd hc.1 (not_lt.mpr h)
      · intro hc
        exact absurd hc.2 (not_le.mpr h)
    simp [Member.pay_fine, h, hcond, h0]
  · obtain ⟨h1, h2⟩ := not_or.mp h
    have h1' : 0 < amount := lt_of_not_le h1
    have h2' : amount ≤ m.fines_owed := le_of_not_lt h2
    have hcond : 0 < amount ∧ amount ≤ m.fines_owed := ⟨h1', h2'⟩
    refine ⟨?_, ?_, ?_⟩
    · simp [Member.pay_fine, h, hcond]
    · simp [Member.pay_fine, h, hcond]
    · simp only [Member.pay_fine, if_neg h]
      have : (0 : Rat) ≤ m.fines_owed - amount := by linarith
      simpa using this

theorem c8_pay_fine_witness :
    ((memOwes5.pay_fine 5).2 = true ↔
      0 < (5 : Rat) ∧ (5 : Rat) ≤ memOwes5.fines_owed) ∧
    (memOwes5.pay_fine 5).1.fines_owed =
      (if 0 < (5 : Rat) ∧ (5 : Rat) ≤ memOwes5.fines_owed
       then memOwes5.fines_owed - 5 else memOwes5.fines_owed) ∧
    0 ≤ (memOwes5.pay_fine 5).1.fines_owed :=
  c8_pay_fine memOwes5 5 (by decide)
